import Mathlib

/-!
Verification of the tile manifest and mosaic-compositing engine of the
Maps-for-Mars repository.

The Python sources embedded here are:
* `backend/app/utils/converter.py` — `split_into_tiles` (the Tile Grid Splitter);
* `backend/app/utils/restitcher.py` — `tiles_from_manifest`, `compose_region`,
  `stitch_full`, `extract_bounds`, `crop_by_latlon` (the Region Compositor and
  the bounding-box Geo-to-Pixel Mapper).

Modelling conventions:
* A raster is a total pixel function `Int → Int → Pixel`; PIL `crop`/`paste`
  are embedded as `cropImg`/`pasteImg`, and a PIL image value is a `Canvas`
  carrying its declared width/height together with its pixel function.  All
  accesses the Python code performs stay inside the modelled bounds, so the
  total-function model agrees with PIL on every accessed pixel.
* The file system is a predicate `FPath → Bool` (does this file exist?) plus a
  content map `FPath → Int → Int → Pixel` (the raster decoded from this file).
  Paths are lists of components; `Path.__truediv__` is list append.
* Python exceptions raised by the embedded functions become constructors of
  `Err`; each constructor corresponds to one distinct `raise` site/message.
* `compose_region` additionally returns the list of tile files it has opened
  with `Image.open`, in order — the I/O trace of the composition.
* Geographic arithmetic (Python floats) is embedded over `ℚ`.
-/

/-- Pixel values are left abstract; `0` is the default background that
`Image.new` fills a fresh canvas with. -/
abbrev Pixel := Nat

/-- A decoded raster as a total pixel function. -/
abbrev Img := Int → Int → Pixel

/-- A file path, as a list of path components; `/` on `pathlib.Path` is
modelled by list append. -/
abbrev FPath := List String

/-- A PIL image: its size plus its pixel function.  Pixels outside
`[0, w) × [0, h)` are never consulted by the embedded operations. -/
structure Canvas where
  w : Int
  h : Int
  pix : Img

/-- `img.crop((cl, ct, cr, cb))`: pixel `(i, j)` of the result is pixel
`(cl + i, ct + j)` of the source.  (The Python callers below only read the
in-bounds part of the result, where this model agrees with PIL.) -/
def cropImg (img : Img) (cl ct : Int) : Img :=
  fun i j => img (cl + i) (ct + j)

/-- `canvas.paste(frag, (px, py))` for a fragment of size `fw × fh`: the
fragment lands at offset `(px, py)` and is clipped to the canvas bounds,
leaving every other pixel unchanged. -/
def pasteImg (canvas : Canvas) (frag : Img) (px py fw fh : Int) : Canvas :=
  { w := canvas.w, h := canvas.h,
    pix := fun x y =>
      if px ≤ x ∧ x < px + fw ∧ py ≤ y ∧ y < py + fh ∧
         0 ≤ x ∧ x < canvas.w ∧ 0 ≤ y ∧ y < canvas.h then
        frag (x - px) (y - py)
      else canvas.pix x y }

/-- One entry of `manifest["tiles"]`: grid indices, pixel placement, and the
location references written by the converter (`path` is relative to the
manifest's directory; `relative_to_root` / `absolute` are the fallbacks). -/
structure Tile where
  row : Nat
  col : Nat
  x : Int
  y : Int
  width : Int
  height : Int
  path : FPath
  relative_to_root : Option FPath
  absolute : Option FPath
deriving DecidableEq

/-- The projection subsection of `label_metadata`, restricted to the fields
`extract_bounds` consumes.  A field that is absent from the label (or whose
value `coerce_float` cannot interpret) is `none`. -/
structure Projection where
  MINIMUM_LATITUDE : Option ℚ
  MAXIMUM_LATITUDE : Option ℚ
  WESTERNMOST_LONGITUDE : Option ℚ
  EASTERNMOST_LONGITUDE : Option ℚ
deriving DecidableEq

/-- `manifest["label_metadata"]`, restricted to the `projection` entry. -/
structure LabelMetadata where
  projection : Option Projection
deriving DecidableEq

/-- The manifest emitted by `converter.py` and consumed by `restitcher.py`,
restricted to the fields the compositing engine reads. -/
structure Manifest where
  image_width : Int
  image_height : Int
  tile_size : Int
  image_mode : String
  tiles : List Tile
  project_root : Option FPath
  label_metadata : Option LabelMetadata

/-- The error conditions raised by the restitcher, one constructor per
distinct `raise` site:
* `emptyRegion` — `"Requested bounds yield an empty region."`;
* `missingTile` — `FileNotFoundError("Tile referenced by manifest does not
  exist: {tile}")`, which names the tile (hence its row/col);
* `invalidExtent` — `"Scene metadata does not contain a valid geographic
  extent."`;
* `outOfBounds` — `"Requested crop is outside the scene bounds."`;
* `missingLabelMetadata`, `missingProjection`, `missingProjValues` — the three
  `ValueError`s of `extract_bounds`. -/
inductive Err where
  | emptyRegion
  | missingTile (row col : Nat)
  | invalidExtent
  | outOfBounds
  | missingLabelMetadata
  | missingProjection
  | missingProjValues
deriving DecidableEq

/-- `create_canvas`: `Image.new(mode, (width, height))`, default-initialized
(all pixels are the background value `0`).  The manifest argument only
supplies the pixel mode, which the pixel-level model does not distinguish. -/
def create_canvas (_m : Manifest) (width height : Int) : Canvas :=
  { w := width, h := height, pix := fun _ _ => 0 }

/-- The per-tile file resolution performed inside `tiles_from_manifest`:
try `base_dir / tile["path"]`; if that file does not exist and the manifest
records a project root while the tile carries `relative_to_root`, the
candidate becomes `project_root / tile["relative_to_root"]`; otherwise
(`elif`) the candidate becomes `tile["absolute"]` if recorded; a final
existence check accepts the candidate or fails (`none` models the raised
`FileNotFoundError`). -/
def resolveTile (fs : FPath → Bool) (baseDir : FPath) (projectRoot : Option FPath)
    (tile : Tile) : Option FPath :=
  let candidate := baseDir ++ tile.path
  if fs candidate then some candidate
  else
    let candidate :=
      match projectRoot, tile.relative_to_root with
      | some root, some rel => root ++ rel
      | _, _ =>
        match tile.absolute with
        | some a => a
        | none => candidate
    if fs candidate then some candidate else none

/-- The path `resolveTile` yields, defaulting to `[]` (only meaningful when
resolution succeeds). -/
def resolvedPath (fs : FPath → Bool) (baseDir : FPath) (projectRoot : Option FPath)
    (tile : Tile) : FPath :=
  (resolveTile fs baseDir projectRoot tile).getD []

/-- Does the tile's bounding box `[x, x+width) × [y, y+height)` intersect the
query rectangle `[l, r) × [t, b)`?  (The complement of the `continue` guard in
`compose_region`.) -/
def intersectsRect (l t r b : Int) (tile : Tile) : Bool :=
  decide (max l tile.x < min r (tile.x + tile.width)) &&
    decide (max t tile.y < min b (tile.y + tile.height))

/-- The tile loop of `compose_region`, fused with the generator
`tiles_from_manifest`: for each tile in manifest order, resolve its file
(failure aborts with `missingTile`); skip it if its bounding box does not
intersect the query rectangle; otherwise open the file (recorded in the
returned trace), crop the intersection out of the tile image and paste it
onto the canvas at the intersection's canvas-local offset. -/
def composeAux (fs : FPath → Bool) (tileImg : FPath → Img) (baseDir : FPath)
    (projectRoot : Option FPath) (l t r b : Int) :
    List Tile → Canvas → List FPath → List FPath × Except Err Canvas
  | [], canvas, opened => (opened, .ok canvas)
  | tile :: rest, canvas, opened =>
    match resolveTile fs baseDir projectRoot tile with
    | none => (opened, .error (.missingTile tile.row tile.col))
    | some p =>
      if max l tile.x ≥ min r (tile.x + tile.width) ∨
         max t tile.y ≥ min b (tile.y + tile.height) then
        composeAux fs tileImg baseDir projectRoot l t r b rest canvas opened
      else
        composeAux fs tileImg baseDir projectRoot l t r b rest
          (pasteImg canvas
            (cropImg (tileImg p) (max l tile.x - tile.x) (max t tile.y - tile.y))
            (max l tile.x - l) (max t tile.y - t)
            (min r (tile.x + tile.width) - max l tile.x)
            (min b (tile.y + tile.height) - max t tile.y))
          (opened ++ [p])

/-- `compose_region(manifest, manifest_path, bounds_px, output_path)`:
`bounds_px = (left, top, right, bottom)`.  The degenerate-width/height guard
fires before any canvas allocation or file access; otherwise the canvas of
size `(right-left) × (bottom-top)` is built and the tile loop runs.  The first
component of the result is the list of tile files opened (the I/O trace); an
`.ok` result models a successful `canvas.save(output_path)`, an `.error`
result a raised exception and hence no output file. -/
def compose_region (fs : FPath → Bool) (tileImg : FPath → Img) (m : Manifest)
    (baseDir : FPath) (bounds : Int × Int × Int × Int) :
    List FPath × Except Err Canvas :=
  if max 0 (bounds.2.2.1 - bounds.1) = 0 ∨ max 0 (bounds.2.2.2 - bounds.2.1) = 0 then
    ([], .error .emptyRegion)
  else
    composeAux fs tileImg baseDir m.project_root
      bounds.1 bounds.2.1 bounds.2.2.1 bounds.2.2.2 m.tiles
      (create_canvas m (max 0 (bounds.2.2.1 - bounds.1)) (max 0 (bounds.2.2.2 - bounds.2.1)))
      []

/-- `stitch_full`: `compose_region` over the whole mosaic extent. -/
def stitch_full (fs : FPath → Bool) (tileImg : FPath → Img) (m : Manifest)
    (baseDir : FPath) : List FPath × Except Err Canvas :=
  compose_region fs tileImg m baseDir (0, 0, m.image_width, m.image_height)

/-- `extract_bounds`: reads the four geographic fields of
`label_metadata.projection`; the two latitudes are sorted (`min`/`max`), the
two longitudes are passed through unsorted. -/
def extract_bounds (m : Manifest) :
    Except Err (ℚ × ℚ × ℚ × ℚ) :=
  match m.label_metadata with
  | none => .error .missingLabelMetadata
  | some lm =>
    match lm.projection with
    | none => .error .missingProjection
    | some proj =>
      match proj.MINIMUM_LATITUDE, proj.MAXIMUM_LATITUDE,
            proj.WESTERNMOST_LONGITUDE, proj.EASTERNMOST_LONGITUDE with
      | some mLat, some xLat, some wLon, some eLon =>
        .ok (min mLat xLat, max mLat xLat, wLon, eLon)
      | _, _, _, _ => .error .missingProjValues

/-- The scene extent returned by `extract_bounds`:
`(min_lat, max_lat, west_lon, east_lon)`. -/
structure GeoBounds where
  min_lat : ℚ
  max_lat : ℚ
  west_lon : ℚ
  east_lon : ℚ
deriving DecidableEq

/-- `max(lo, min(hi, x))` — the clamp pattern used by `crop_by_latlon`. -/
def clampQ (lo hi x : ℚ) : ℚ := max lo (min hi x)

/-- The closure `lat_to_y` of `crop_by_latlon`:
`(bounds.max_lat - lat) / lat_span * height`. -/
def latToY (bounds : GeoBounds) (height lat : ℚ) : ℚ :=
  (bounds.max_lat - lat) / (bounds.max_lat - bounds.min_lat) * height

/-- The closure `lon_to_x` of `crop_by_latlon`:
`(lon - bounds.west_lon) / lon_span * width`. -/
def lonToX (bounds : GeoBounds) (width lon : ℚ) : ℚ :=
  (lon - bounds.west_lon) / (bounds.east_lon - bounds.west_lon) * width

/-- The tail of `crop_by_latlon` after the requested box has been clamped to
the scene extent: reject a degenerate clamped box (`outOfBounds`), map the
four clamped edges through the linear maps, clamp the mapped edges to
`[0, width] × [0, height]`, round outward (`floor` left/top, `ceil`
right/bottom), reject a degenerate pixel rectangle (`emptyRegion`), and
otherwise return `(left, top, right, bottom)`. -/
def cropRectClamped (bounds : GeoBounds) (width height : ℚ)
    (min_lat max_lat min_lon max_lon : ℚ) : Except Err (Int × Int × Int × Int) :=
  if max_lat - min_lat ≤ 0 ∨ max_lon - min_lon ≤ 0 then .error .outOfBounds
  else
    if ⌊max 0 (min width (lonToX bounds width min_lon))⌋ ≥
         ⌈max 0 (min width (lonToX bounds width max_lon))⌉ ∨
       ⌊max 0 (min height (latToY bounds height max_lat))⌋ ≥
         ⌈max 0 (min height (latToY bounds height min_lat))⌉ then
      .error .emptyRegion
    else
      .ok (⌊max 0 (min width (lonToX bounds width min_lon))⌋,
           ⌊max 0 (min height (latToY bounds height max_lat))⌋,
           ⌈max 0 (min width (lonToX bounds width max_lon))⌉,
           ⌈max 0 (min height (latToY bounds height min_lat))⌉)

/-- The geographic-to-pixel part of `crop_by_latlon`: reject a degenerate
scene extent (`invalidExtent`), clamp the requested box
`(min_lat, min_lon, max_lat, max_lon)` to the extent (each requested edge is
first ordered with its partner via `min`/`max`, then clamped), and continue
with `cropRectClamped`. -/
def crop_rect (bounds : GeoBounds) (width height : ℚ) (req : ℚ × ℚ × ℚ × ℚ) :
    Except Err (Int × Int × Int × Int) :=
  if bounds.max_lat - bounds.min_lat ≤ 0 ∨ bounds.east_lon - bounds.west_lon ≤ 0 then
    .error .invalidExtent
  else
    cropRectClamped bounds width height
      (clampQ bounds.min_lat bounds.max_lat (min req.1 req.2.2.1))
      (clampQ bounds.min_lat bounds.max_lat (max req.1 req.2.2.1))
      (clampQ bounds.west_lon bounds.east_lon (min req.2.1 req.2.2.2))
      (clampQ bounds.west_lon bounds.east_lon (max req.2.1 req.2.2.2))

/-- `crop_by_latlon`: derive the scene extent from the manifest, map the
requested geographic box to a pixel rectangle, and compose that rectangle.
An error before composition leaves an empty I/O trace. -/
def crop_by_latlon (fs : FPath → Bool) (tileImg : FPath → Img) (m : Manifest)
    (baseDir : FPath) (req : ℚ × ℚ × ℚ × ℚ) : List FPath × Except Err Canvas :=
  match extract_bounds m with
  | .error e => ([], .error e)
  | .ok (mLat, xLat, wLon, eLon) =>
    match crop_rect ⟨mLat, xLat, wLon, eLon⟩
        (m.image_width : ℚ) (m.image_height : ℚ) req with
    | .error e => ([], .error e)
    | .ok rect => compose_region fs tileImg m baseDir rect

/-! ## The Tile Grid Splitter (`converter.py`, `split_into_tiles`) -/

/-- One record of the `tile_records` list built by `split_into_tiles`
(placement fields only; the location references are attached when the record
is turned into a manifest `Tile`). -/
structure SplitTile where
  row : Nat
  col : Nat
  x : Nat
  y : Nat
  width : Nat
  height : Nat
deriving DecidableEq

/-- Python's `range(0, stop, step)` for `step > 0`. -/
def pyRange (stop step : Nat) : List Nat :=
  (List.range ((stop + step - 1) / step)).map (· * step)

/-- The doubly nested tile loop of `split_into_tiles`: for `top` in
`range(0, height, tile_size)` and `left` in `range(0, width, tile_size)`,
`right = min(left + tile_size, width)`, `bottom = min(top + tile_size,
height)`, `row = top // tile_size`, `col = left // tile_size`. -/
def splitTiles (width height tile_size : Nat) : List SplitTile :=
  (pyRange height tile_size).flatMap fun top =>
    (pyRange width tile_size).map fun left =>
      { row := top / tile_size, col := left / tile_size,
        x := left, y := top,
        width := min (left + tile_size) width - left,
        height := min (top + tile_size) height - top }

/-- `split_into_tiles`, including its `tile_size <= 0` rejection
(`ValueError` before any tile is written, modelled as `none`). -/
def split_into_tiles (width height tile_size : Nat) : Option (List SplitTile) :=
  if tile_size = 0 then none else some (splitTiles width height tile_size)

/-- The content of the tile file the splitter saves for record `t`:
`img.crop((left, top, right, bottom))`, i.e. pixel `(i, j)` of the tile is
pixel `(t.x + i, t.y + j)` of the source raster. -/
def splitTileContent (img : Img) (t : SplitTile) : Img :=
  fun i j => img ((t.x : Int) + i) ((t.y : Int) + j)

/-- The deterministic tile file name
`f"{stem}_r{row:03d}_c{col:03d}{suffix}"` (zero padding and format suffix
elided — only identity of names matters to the compositor). -/
def tileFileName (stem : String) (r c : Nat) : String :=
  stem ++ "_r" ++ toString r ++ "_c" ++ toString c

/-- The manifest `Tile` record written for a splitter record: placement is
copied verbatim, `path` is the tile file name relative to the tiles
directory. -/
def tileOfSplit (stem : String) (t : SplitTile) : Tile :=
  { row := t.row, col := t.col, x := (t.x : Int), y := (t.y : Int),
    width := (t.width : Int), height := (t.height : Int),
    path := [tileFileName stem t.row t.col],
    relative_to_root := none, absolute := none }

/-- The manifest `split_into_tiles` + `main` emit for a tiled raster. -/
def manifestOfSplit (stem mode : String) (width height tile_size : Nat) : Manifest :=
  { image_width := (width : Int), image_height := (height : Int),
    tile_size := (tile_size : Int), image_mode := mode,
    tiles := (splitTiles width height tile_size).map (tileOfSplit stem),
    project_root := none, label_metadata := none }

/-! ## Geometric predicates used in the statements -/

/-- The tile's half-open bounding box contains the (global) pixel. -/
def covers (tile : Tile) (gx gy : Int) : Prop :=
  tile.x ≤ gx ∧ gx < tile.x + tile.width ∧ tile.y ≤ gy ∧ gy < tile.y + tile.height

/-- The half-open query rectangle contains the (global) pixel. -/
def inRect (l t r b gx gy : Int) : Prop :=
  l ≤ gx ∧ gx < r ∧ t ≤ gy ∧ gy < b

/-! ## The offset/resolution projection (modelled from the spec)

The repository's sources under version control here contain only the
bounding-box linear mapping (`crop_by_latlon` above); the alternate
offset/resolution geographic projection described by the spec is not present
under `src` — only the projection metadata fields it consumes
(`SAMPLE_PROJECTION_OFFSET`, `LINE_PROJECTION_OFFSET`, `CENTER_LATITUDE`,
`CENTER_LONGITUDE`, `MAP_RESOLUTION`) are recorded by `load_label_metadata`
in `converter.py`.  The definitions below are therefore modelled from the
spec's own description. -/

/-- Modelled from the spec: the geophysical fields the offset/resolution
projection consumes, recorded by `load_label_metadata` but used by no
function under `src`. -/
structure OffsetProjection where
  sample_offset : ℚ
  line_offset : ℚ
  center_lat : ℚ
  center_lon : ℚ
  map_resolution : ℚ
deriving DecidableEq

/-- Modelled from the spec: `wrap` normalizes a longitude delta into
`[-180, 180)`. -/
def wrapLonDelta (d : ℚ) : ℚ := d - 360 * ⌊(d + 180) / 360⌋

/-- Modelled from the spec:
`sample = sample_offset + wrap(lon - center_lon) * resolution`. -/
def sampleOf (p : OffsetProjection) (lon : ℚ) : ℚ :=
  p.sample_offset + wrapLonDelta (lon - p.center_lon) * p.map_resolution

/-- Modelled from the spec:
`line = line_offset - (lat - center_lat) * resolution`. -/
def lineOf (p : OffsetProjection) (lat : ℚ) : ℚ :=
  p.line_offset - (lat - p.center_lat) * p.map_resolution

/-- Modelled from the spec: evaluate the projection at all four corners of
the requested box and take the enclosing axis-aligned rectangle
`(left, top, right, bottom)`. -/
def offsetProjRect (p : OffsetProjection) (minLat minLon maxLat maxLon : ℚ) :
    ℚ × ℚ × ℚ × ℚ :=
  (min (sampleOf p minLon) (sampleOf p maxLon),
   min (lineOf p minLat) (lineOf p maxLat),
   max (sampleOf p minLon) (sampleOf p maxLon),
   max (lineOf p minLat) (lineOf p maxLat))

/-! ## Concrete fixtures used by witnesses and counterexamples -/

/-- A one-tile manifest whose tile file does not exist on the example file
system `fun _ => false` (fixture for the missing-tile abort). -/
def mMissing : Manifest :=
  ⟨1, 1, 1, "L", [⟨2, 3, 0, 0, 1, 1, ["t"], none, none⟩], none, none⟩

/-- A manifest whose two latitude fields are swapped and whose west/east
longitudes are in decreasing order (fixture for `extract_bounds`). -/
def mSwapped : Manifest :=
  ⟨1000, 1000, 4, "L", [], none, some ⟨some ⟨some 20, some 10, some 40, some 30⟩⟩⟩

/-! ## Splitter lemmas -/

/-- The splitter's tile list is exactly the row-major grid: row `r`, column
`c` contributes the record with `x = c*T`, `y = r*T` and edge-truncated
width/height. -/
theorem splitTiles_eq_grid (W H T : Nat) (hT : 0 < T) :
    splitTiles W H T =
      (List.range ((H + T - 1) / T)).flatMap fun r =>
        (List.range ((W + T - 1) / T)).map fun c =>
          { row := r, col := c, x := c * T, y := r * T,
            width := min ((c + 1) * T) W - c * T,
            height := min ((r + 1) * T) H - r * T } := by
  unfold splitTiles pyRange
  rw [List.flatMap_map]
  refine List.flatMap_congr ?_
  intro r _
  rw [List.map_map]
  refine List.map_congr_left ?_
  intro c _
  simp only [Function.comp_apply]
  congr 1 <;> first
    | exact Nat.mul_div_cancel _ hT
    | (rw [Nat.succ_mul])

/-- Number of grid tiles: `ceil(H/T) * ceil(W/T)`. -/
theorem splitTiles_length (W H T : Nat) (hT : 0 < T) :
    (splitTiles W H T).length = ((H + T - 1) / T) * ((W + T - 1) / T) := by
  rw [splitTiles_eq_grid W H T hT, List.length_flatMap]
  have h1 : (List.map
      (List.length ∘ fun r =>
        (List.range ((W + T - 1) / T)).map fun c =>
          ({ row := r, col := c, x := c * T, y := r * T,
             width := min ((c + 1) * T) W - c * T,
             height := min ((r + 1) * T) H - r * T } : SplitTile))
      (List.range ((H + T - 1) / T))) =
      List.map (Function.const Nat ((W + T - 1) / T)) (List.range ((H + T - 1) / T)) := by
    refine List.map_congr_left ?_
    intro r _
    simp [Function.const]
  rw [h1, List.map_const, List.length_range, List.sum_replicate, smul_eq_mul]

/-- `n < b → n / T < ceil(b/T)` (for positive `T`): a pixel short of the edge
lies in a grid row/column index short of the grid size. -/
theorem div_lt_ceilDiv {n b T : Nat} (hT : 0 < T) (h : n < b) :
    n / T < (b + T - 1) / T := by
  have hb1 : b + T - 1 = (b - 1) + T := by omega
  rw [hb1, Nat.add_div_right _ hT]
  exact Nat.lt_succ_of_le (Nat.div_le_div_right (by omega))

/-- The splitter's tiles partition `[0,W) × [0,H)`: every pixel is covered by
exactly one tile record, namely the one at row `y/T`, column `x/T`. -/
theorem splitTiles_covers_unique (W H T : Nat) (hT : 0 < T) {x y : Nat}
    (hx : x < W) (hy : y < H) :
    ∃! tl : SplitTile, tl ∈ splitTiles W H T ∧
      tl.x ≤ x ∧ x < tl.x + tl.width ∧ tl.y ≤ y ∧ y < tl.y + tl.height := by
  have hxd : x / T * T ≤ x := Nat.div_mul_le_self x T
  have hyd : y / T * T ≤ y := Nat.div_mul_le_self y T
  have hxm : x < (x / T + 1) * T := by
    have h1 := Nat.div_add_mod x T
    have h2 : x % T < T := Nat.mod_lt _ hT
    calc x = T * (x / T) + x % T := h1.symm
    _ < T * (x / T) + T := by omega
    _ = (x / T + 1) * T := by ring
  have hym : y < (y / T + 1) * T := by
    have h1 := Nat.div_add_mod y T
    have h2 : y % T < T := Nat.mod_lt _ hT
    calc y = T * (y / T) + y % T := h1.symm
    _ < T * (y / T) + T := by omega
    _ = (y / T + 1) * T := by ring
  have hxmin : x / T * T ≤ min ((x / T + 1) * T) W :=
    le_min (by nlinarith) (le_of_lt (lt_of_le_of_lt hxd hx))
  have hymin : y / T * T ≤ min ((y / T + 1) * T) H :=
    le_min (by nlinarith) (le_of_lt (lt_of_le_of_lt hyd hy))
  refine ⟨{ row := y / T, col := x / T, x := x / T * T, y := y / T * T,
            width := min ((x / T + 1) * T) W - x / T * T,
            height := min ((y / T + 1) * T) H - y / T * T }, ⟨?_, ?_⟩, ?_⟩
  · rw [splitTiles_eq_grid _ _ _ hT]
    exact List.mem_flatMap.mpr ⟨y / T, List.mem_range.mpr (div_lt_ceilDiv hT hy),
      List.mem_map.mpr ⟨x / T, List.mem_range.mpr (div_lt_ceilDiv hT hx), rfl⟩⟩
  · refine ⟨hxd, ?_, hyd, ?_⟩
    · rw [Nat.add_sub_cancel' hxmin]
      exact lt_min hxm hx
    · rw [Nat.add_sub_cancel' hymin]
      exact lt_min hym hy
  · rintro tl ⟨hmem, hx1, hx2, hy1, hy2⟩
    rw [splitTiles_eq_grid _ _ _ hT] at hmem
    obtain ⟨r, _, hmem2⟩ := List.mem_flatMap.mp hmem
    obtain ⟨c, _, rfl⟩ := List.mem_map.mp hmem2
    simp only at hx1 hx2 hy1 hy2
    have hcT : c * T ≤ (c + 1) * T := by nlinarith
    have hrT : r * T ≤ (r + 1) * T := by nlinarith
    have hcx : x < (c + 1) * T := by
      have h3 : min ((c + 1) * T) W - c * T ≤ (c + 1) * T - c * T :=
        Nat.sub_le_sub_right (min_le_left _ _) _
      omega
    have hry : y < (r + 1) * T := by
      have h3 : min ((r + 1) * T) H - r * T ≤ (r + 1) * T - r * T :=
        Nat.sub_le_sub_right (min_le_left _ _) _
      omega
    have hc2 : x / T = c := Nat.div_eq_of_lt_le hx1 hcx
    have hr2 : y / T = r := Nat.div_eq_of_lt_le hy1 hry
    rw [hc2, hr2]

/-! ## Region Compositor lemmas -/

theorem intersectsRect_iff (l t r b : Int) (tile : Tile) :
    intersectsRect l t r b tile = true ↔
      max l tile.x < min r (tile.x + tile.width) ∧
      max t tile.y < min b (tile.y + tile.height) := by
  simp [intersectsRect]

/-- With every tile resolvable, the tile loop appends to the trace exactly
the resolved files of the tiles whose bounding boxes intersect the query
rectangle, in manifest order. -/
theorem composeAux_fst (fs : FPath → Bool) (tileImg : FPath → Img) (baseDir : FPath)
    (projectRoot : Option FPath) (l t r b : Int) (tiles : List Tile) :
    ∀ (canvas : Canvas) (opened : List FPath),
      (∀ tile ∈ tiles, (resolveTile fs baseDir projectRoot tile).isSome = true) →
      (composeAux fs tileImg baseDir projectRoot l t r b tiles canvas opened).1 =
        opened ++ (tiles.filter (intersectsRect l t r b)).map
          (resolvedPath fs baseDir projectRoot) := by
  induction tiles with
  | nil => intro canvas opened _; simp [composeAux]
  | cons tile rest ih =>
    intro canvas opened hres
    obtain ⟨p, hp⟩ := Option.isSome_iff_exists.mp (hres tile (List.mem_cons_self _ _))
    have hres' : ∀ tl ∈ rest, (resolveTile fs baseDir projectRoot tl).isSome = true :=
      fun tl h => hres tl (List.mem_cons_of_mem _ h)
    simp only [composeAux, hp]
    by_cases hskip : max l tile.x ≥ min r (tile.x + tile.width) ∨
        max t tile.y ≥ min b (tile.y + tile.height)
    · rw [if_pos hskip, ih canvas opened hres']
      have hint : ¬ intersectsRect l t r b tile = true := by
        rw [intersectsRect_iff]; omega
      rw [List.filter_cons, if_neg hint]
    · rw [if_neg hskip, ih _ _ hres']
      have hint : intersectsRect l t r b tile = true := by
        rw [intersectsRect_iff]; omega
      rw [List.filter_cons, if_pos hint]
      have hrp : resolvedPath fs baseDir projectRoot tile = p := by
        simp [resolvedPath, hp]
      simp [hrp]

/-- If some tile of the list cannot be resolved, the tile loop aborts with a
`missingTile` error naming the row/col of an unresolvable tile. -/
theorem composeAux_missing (fs : FPath → Bool) (tileImg : FPath → Img) (baseDir : FPath)
    (projectRoot : Option FPath) (l t r b : Int) (tiles : List Tile) :
    ∀ (canvas : Canvas) (opened : List FPath),
      (∃ tile ∈ tiles, resolveTile fs baseDir projectRoot tile = none) →
      ∃ tile ∈ tiles, resolveTile fs baseDir projectRoot tile = none ∧
        (composeAux fs tileImg baseDir projectRoot l t r b tiles canvas opened).2 =
          .error (.missingTile tile.row tile.col) := by
  induction tiles with
  | nil => rintro canvas opened ⟨tile, h, -⟩; exact absurd h (List.not_mem_nil _)
  | cons tile rest ih =>
    intro canvas opened hex
    cases hp : resolveTile fs baseDir projectRoot tile with
    | none =>
      refine ⟨tile, List.mem_cons_self _ _, hp, ?_⟩
      simp only [composeAux, hp]
    | some p =>
      obtain ⟨tl, htl, hnone⟩ := hex
      have htl' : tl ∈ rest := by
        rcases List.mem_cons.mp htl with rfl | h
        · rw [hp] at hnone; exact absurd hnone (by simp)
        · exact h
      simp only [composeAux, hp]
      by_cases hskip : max l tile.x ≥ min r (tile.x + tile.width) ∨
          max t tile.y ≥ min b (tile.y + tile.height)
      · rw [if_pos hskip]
        obtain ⟨tl2, h1, h2, h3⟩ := ih canvas opened ⟨tl, htl', hnone⟩
        exact ⟨tl2, List.mem_cons_of_mem _ h1, h2, h3⟩
      · rw [if_neg hskip]
        obtain ⟨tl2, h1, h2, h3⟩ := ih _ _ ⟨tl, htl', hnone⟩
        exact ⟨tl2, List.mem_cons_of_mem _ h1, h2, h3⟩

/-- Full characterization of a successful tile loop whose tile files all
resolve and all carry crops of a common source raster `img`: the loop
succeeds, preserves the canvas size, writes `img` at every query pixel
covered by some tile, and leaves every other pixel untouched. -/
theorem composeAux_ok_char (fs : FPath → Bool) (tileImg : FPath → Img) (baseDir : FPath)
    (projectRoot : Option FPath) (img : Img) (l t r b : Int) (tiles : List Tile) :
    ∀ (canvas : Canvas) (opened : List FPath),
      canvas.w = r - l → canvas.h = b - t →
      (∀ tile ∈ tiles, (resolveTile fs baseDir projectRoot tile).isSome = true) →
      (∀ tile ∈ tiles, ∀ i j : Int,
          tileImg (resolvedPath fs baseDir projectRoot tile) i j =
            img (tile.x + i) (tile.y + j)) →
      ∃ out : Canvas,
        (composeAux fs tileImg baseDir projectRoot l t r b tiles canvas opened).2 = .ok out ∧
        out.w = canvas.w ∧ out.h = canvas.h ∧
        ∀ px py : Int, 0 ≤ px → 0 ≤ py →
          ((∃ tile ∈ tiles, covers tile (l + px) (t + py) ∧
              inRect l t r b (l + px) (t + py)) →
            out.pix px py = img (l + px) (t + py)) ∧
          (¬ (∃ tile ∈ tiles, covers tile (l + px) (t + py) ∧
              inRect l t r b (l + px) (t + py)) →
            out.pix px py = canvas.pix px py) := by
  induction tiles with
  | nil =>
    intro canvas opened _ _ _ _
    refine ⟨canvas, rfl, rfl, rfl, fun px py _ _ => ⟨?_, fun _ => rfl⟩⟩
    rintro ⟨tile, h, -⟩
    exact absurd h (List.not_mem_nil _)
  | cons tile rest ih =>
    intro canvas opened hw hh hres hcontent
    obtain ⟨p, hp⟩ := Option.isSome_iff_exists.mp (hres tile (List.mem_cons_self _ _))
    have hres' : ∀ tl ∈ rest, (resolveTile fs baseDir projectRoot tl).isSome = true :=
      fun tl h => hres tl (List.mem_cons_of_mem _ h)
    have hcontent' : ∀ tl ∈ rest, ∀ i j : Int,
        tileImg (resolvedPath fs baseDir projectRoot tl) i j =
          img (tl.x + i) (tl.y + j) :=
      fun tl h => hcontent tl (List.mem_cons_of_mem _ h)
    have hrp : resolvedPath fs baseDir projectRoot tile = p := by
      simp [resolvedPath, hp]
    simp only [composeAux, hp]
    by_cases hskip : max l tile.x ≥ min r (tile.x + tile.width) ∨
        max t tile.y ≥ min b (tile.y + tile.height)
    · rw [if_pos hskip]
      obtain ⟨out, hout, hw2, hh2, hchar⟩ := ih canvas opened hw hh hres' hcontent'
      refine ⟨out, hout, hw2, hh2, fun px py hpx hpy => ?_⟩
      have hiff : (∃ tl ∈ tile :: rest, covers tl (l + px) (t + py) ∧
          inRect l t r b (l + px) (t + py)) ↔
          (∃ tl ∈ rest, covers tl (l + px) (t + py) ∧
            inRect l t r b (l + px) (t + py)) := by
        constructor
        · rintro ⟨tl, htl, hcov, hrect⟩
          rcases List.mem_cons.mp htl with rfl | h
          · exfalso
            simp only [covers, inRect] at hcov hrect
            omega
          · exact ⟨tl, h, hcov, hrect⟩
        · rintro ⟨tl, htl, hcov, hrect⟩
          exact ⟨tl, List.mem_cons_of_mem _ htl, hcov, hrect⟩
      rw [hiff]
      exact hchar px py hpx hpy
    · rw [if_neg hskip]
      obtain ⟨out, hout, hw2, hh2, hchar⟩ :=
        ih (pasteImg canvas
            (cropImg (tileImg p) (max l tile.x - tile.x) (max t tile.y - tile.y))
            (max l tile.x - l) (max t tile.y - t)
            (min r (tile.x + tile.width) - max l tile.x)
            (min b (tile.y + tile.height) - max t tile.y))
          (opened ++ [p]) hw hh hres' hcontent'
      refine ⟨out, hout, hw2, hh2, fun px py hpx hpy => ?_⟩
      constructor
      · rintro ⟨tl, htl, hcov, hrect⟩
        rcases List.mem_cons.mp htl with rfl | hmem
        · by_cases hrest : ∃ tl2 ∈ rest, covers tl2 (l + px) (t + py) ∧
              inRect l t r b (l + px) (t + py)
          · exact (hchar px py hpx hpy).1 hrest
          · rw [(hchar px py hpx hpy).2 hrest]
            simp only [covers, inRect] at hcov hrect
            simp only [pasteImg]
            rw [if_pos (by omega)]
            simp only [cropImg]
            rw [show max l tl.x - tl.x + (px - (max l tl.x - l)) = l + px - tl.x by ring,
                show max t tl.y - tl.y + (py - (max t tl.y - t)) = t + py - tl.y by ring,
                ← hrp, hcontent tl (List.mem_cons_self _ _)]
            rw [show tl.x + (l + px - tl.x) = l + px by ring,
                show tl.y + (t + py - tl.y) = t + py by ring]
        · exact (hchar px py hpx hpy).1 ⟨tl, hmem, hcov, hrect⟩
      · intro hnone
        have hrest : ¬ ∃ tl2 ∈ rest, covers tl2 (l + px) (t + py) ∧
            inRect l t r b (l + px) (t + py) := by
          rintro ⟨tl2, h1, h2, h3⟩
          exact hnone ⟨tl2, List.mem_cons_of_mem _ h1, h2, h3⟩
        rw [(hchar px py hpx hpy).2 hrest]
        simp only [pasteImg]
        rw [if_neg ?_]
        rintro ⟨c1, c2, c3, c4, c5, c6, c7, c8⟩
        refine hnone ⟨tile, List.mem_cons_self _ _, ?_, ?_⟩ <;>
          simp only [covers, inRect] <;> omega

/-- Weaker characterization without any assumption on tile contents: a tile
loop whose files all resolve succeeds, preserves the canvas size, and leaves
every query pixel covered by no tile untouched. -/
theorem composeAux_ok_bg (fs : FPath → Bool) (tileImg : FPath → Img) (baseDir : FPath)
    (projectRoot : Option FPath) (l t r b : Int) (tiles : List Tile) :
    ∀ (canvas : Canvas) (opened : List FPath),
      canvas.w = r - l → canvas.h = b - t →
      (∀ tile ∈ tiles, (resolveTile fs baseDir projectRoot tile).isSome = true) →
      ∃ out : Canvas,
        (composeAux fs tileImg baseDir projectRoot l t r b tiles canvas opened).2 = .ok out ∧
        out.w = canvas.w ∧ out.h = canvas.h ∧
        ∀ px py : Int, 0 ≤ px → 0 ≤ py →
          (¬ ∃ tile ∈ tiles, covers tile (l + px) (t + py)) →
          out.pix px py = canvas.pix px py := by
  induction tiles with
  | nil =>
    intro canvas opened _ _ _
    exact ⟨canvas, rfl, rfl, rfl, fun px py _ _ _ => rfl⟩
  | cons tile rest ih =>
    intro canvas opened hw hh hres
    obtain ⟨p, hp⟩ := Option.isSome_iff_exists.mp (hres tile (List.mem_cons_self _ _))
    have hres' : ∀ tl ∈ rest, (resolveTile fs baseDir projectRoot tl).isSome = true :=
      fun tl h => hres tl (List.mem_cons_of_mem _ h)
    simp only [composeAux, hp]
    by_cases hskip : max l tile.x ≥ min r (tile.x + tile.width) ∨
        max t tile.y ≥ min b (tile.y + tile.height)
    · rw [if_pos hskip]
      obtain ⟨out, hout, hw2, hh2, hchar⟩ := ih canvas opened hw hh hres'
      refine ⟨out, hout, hw2, hh2, fun px py hpx hpy hnone => ?_⟩
      refine hchar px py hpx hpy ?_
      rintro ⟨tl, htl, hcov⟩
      exact hnone ⟨tl, List.mem_cons_of_mem _ htl, hcov⟩
    · rw [if_neg hskip]
      obtain ⟨out, hout, hw2, hh2, hchar⟩ :=
        ih (pasteImg canvas
            (cropImg (tileImg p) (max l tile.x - tile.x) (max t tile.y - tile.y))
            (max l tile.x - l) (max t tile.y - t)
            (min r (tile.x + tile.width) - max l tile.x)
            (min b (tile.y + tile.height) - max t tile.y))
          (opened ++ [p]) hw hh hres'
      refine ⟨out, hout, hw2, hh2, fun px py hpx hpy hnone => ?_⟩
      have hrest : ¬ ∃ tl ∈ rest, covers tl (l + px) (t + py) := by
        rintro ⟨tl, h1, h2⟩
        exact hnone ⟨tl, List.mem_cons_of_mem _ h1, h2⟩
      rw [hchar px py hpx hpy hrest]
      simp only [pasteImg]
      rw [if_neg ?_]
      rintro ⟨c1, c2, c3, c4, c5, c6, c7, c8⟩
      refine hnone ⟨tile, List.mem_cons_self _ _, ?_⟩
      simp only [covers]
      omega

/-- In the non-degenerate case `compose_region` runs the tile loop on a fresh
background canvas of exactly the requested size. -/
theorem compose_region_nondegenerate (fs : FPath → Bool) (tileImg : FPath → Img)
    (m : Manifest) (baseDir : FPath) (l t r b : Int) (hlr : l < r) (htb : t < b) :
    compose_region fs tileImg m baseDir (l, t, r, b) =
      composeAux fs tileImg baseDir m.project_root l t r b m.tiles
        { w := r - l, h := b - t, pix := fun _ _ => 0 } [] := by
  simp only [compose_region, create_canvas]
  rw [if_neg (by omega), show max 0 (r - l) = r - l by omega,
    show max 0 (b - t) = b - t by omega]

/-! ## Clamp lemmas for the Geo-to-Pixel Mapper -/

theorem clampQ_mono (lo hi : ℚ) {a b : ℚ} (h : a ≤ b) : clampQ lo hi a ≤ clampQ lo hi b :=
  max_le_max le_rfl (min_le_min le_rfl h)

theorem clampQ_mem (lo hi x : ℚ) (h : lo ≤ hi) :
    lo ≤ clampQ lo hi x ∧ clampQ lo hi x ≤ hi :=
  ⟨le_max_left _ _, max_le h (min_le_left _ _)⟩

theorem clampQ_idem (lo hi x : ℚ) (h : lo ≤ hi) :
    clampQ lo hi (clampQ lo hi x) = clampQ lo hi x := by
  obtain ⟨h1, h2⟩ := clampQ_mem lo hi x h
  have houter : clampQ lo hi (clampQ lo hi x) = max lo (min hi (clampQ lo hi x)) := rfl
  rw [houter, min_eq_right h2, max_eq_right h1]

theorem min_clampQ (lo hi a b : ℚ) :
    min (clampQ lo hi a) (clampQ lo hi b) = clampQ lo hi (min a b) := by
  rcases le_total a b with h | h
  · rw [min_eq_left h, min_eq_left (clampQ_mono lo hi h)]
  · rw [min_eq_right h, min_eq_right (clampQ_mono lo hi h)]

theorem max_clampQ (lo hi a b : ℚ) :
    max (clampQ lo hi a) (clampQ lo hi b) = clampQ lo hi (max a b) := by
  rcases le_total a b with h | h
  · rw [max_eq_right h, max_eq_right (clampQ_mono lo hi h)]
  · rw [max_eq_left h, max_eq_left (clampQ_mono lo hi h)]

/-! ## Claim theorems -/

/-- C5: for a degenerate pixel rectangle (`right ≤ left` or `bottom ≤ top`)
`compose_region` fails with the `EmptyRegion` condition before doing any
I/O: its I/O trace is empty (no tile file is checked or opened) and it
produces no output canvas (so no output file is written; in the code the
guard fires before `create_canvas` allocates anything). -/
theorem compose_empty_region_no_io (fs : FPath → Bool) (tileImg : FPath → Img)
    (m : Manifest) (baseDir : FPath) (l t r b : Int) (h : r ≤ l ∨ b ≤ t) :
    compose_region fs tileImg m baseDir (l, t, r, b) = ([], .error .emptyRegion) := by
  simp only [compose_region]
  rw [if_pos (by omega)]

theorem compose_empty_region_no_io_witness :
    compose_region (fun _ => true) (fun _ _ _ => 0)
      { image_width := 4, image_height := 4, tile_size := 4, image_mode := "RGB",
        tiles := [], project_root := none, label_metadata := none }
      ["m"] (5, 0, 5, 10) = ([], .error .emptyRegion) :=
  compose_empty_region_no_io (fun _ => true) (fun _ _ _ => 0)
    { image_width := 4, image_height := 4, tile_size := 4, image_mode := "RGB",
      tiles := [], project_root := none, label_metadata := none }
    ["m"] 5 0 5 10 (Or.inl (by omega))

/-- C6: over a non-degenerate rectangle, with every tile file resolvable,
the I/O trace of `compose_region` consists of exactly the files of the tiles
whose bounding boxes intersect the rectangle, in manifest order — tiles with
no intersection are never opened, and a rectangle lying inside a single tile
opens exactly that tile's file. -/
theorem compose_opens_only_intersecting (fs : FPath → Bool) (tileImg : FPath → Img)
    (m : Manifest) (baseDir : FPath) (l t r b : Int) (hlr : l < r) (htb : t < b)
    (hres : ∀ tile ∈ m.tiles, (resolveTile fs baseDir m.project_root tile).isSome = true) :
    (compose_region fs tileImg m baseDir (l, t, r, b)).1 =
      (m.tiles.filter (intersectsRect l t r b)).map
        (resolvedPath fs baseDir m.project_root) := by
  rw [compose_region_nondegenerate fs tileImg m baseDir l t r b hlr htb,
    composeAux_fst fs tileImg baseDir m.project_root l t r b m.tiles _ [] hres,
    List.nil_append]

theorem compose_opens_only_intersecting_witness :
    (compose_region (fun _ => true) (fun _ _ _ => 0)
      { image_width := 8, image_height := 4, tile_size := 4, image_mode := "RGB",
        tiles := [⟨0, 0, 0, 0, 4, 4, ["t0"], none, none⟩,
                  ⟨0, 1, 4, 0, 4, 4, ["t1"], none, none⟩],
        project_root := none, label_metadata := none }
      ["m"] (1, 1, 2, 2)).1 = [["m", "t0"]] := by
  rw [compose_opens_only_intersecting (fun _ => true) (fun _ _ _ => 0)
    { image_width := 8, image_height := 4, tile_size := 4, image_mode := "RGB",
      tiles := [⟨0, 0, 0, 0, 4, 4, ["t0"], none, none⟩,
                ⟨0, 1, 4, 0, 4, 4, ["t1"], none, none⟩],
      project_root := none, label_metadata := none }
    ["m"] 1 1 2 2 (by omega) (by omega) (by decide)]
  decide

/-- C9: over any non-degenerate pixel rectangle (with all tile files
resolvable), `compose_region` succeeds with a canvas of exactly
`(right-left) × (bottom-top)` pixels — the rectangle is never clamped to the
manifest's `image_size` — and every output pixel covered by no tile keeps
the default-initialized background value `0`. -/
theorem compose_region_unclamped (fs : FPath → Bool) (tileImg : FPath → Img)
    (m : Manifest) (baseDir : FPath) (l t r b : Int) (hlr : l < r) (htb : t < b)
    (hres : ∀ tile ∈ m.tiles, (resolveTile fs baseDir m.project_root tile).isSome = true) :
    ∃ out : Canvas,
      (compose_region fs tileImg m baseDir (l, t, r, b)).2 = .ok out ∧
      out.w = r - l ∧ out.h = b - t ∧
      ∀ px py : Int, 0 ≤ px → 0 ≤ py →
        (¬ ∃ tile ∈ m.tiles, covers tile (l + px) (t + py)) →
        out.pix px py = 0 := by
  rw [compose_region_nondegenerate fs tileImg m baseDir l t r b hlr htb]
  obtain ⟨out, hout, hw, hh, hchar⟩ :=
    composeAux_ok_bg fs tileImg baseDir m.project_root l t r b m.tiles
      { w := r - l, h := b - t, pix := fun _ _ => 0 } [] rfl rfl hres
  exact ⟨out, hout, hw, hh, fun px py hpx hpy hnone => hchar px py hpx hpy hnone⟩

theorem compose_region_unclamped_witness :
    ∃ out : Canvas,
      (compose_region (fun _ => true) (fun _ _ _ => 9)
        { image_width := 4, image_height := 4, tile_size := 4, image_mode := "L",
          tiles := [⟨0, 0, 0, 0, 4, 4, ["t0"], none, none⟩],
          project_root := none, label_metadata := none }
        ["m"] (0, 0, 6, 6)).2 = .ok out ∧
      out.w = 6 - 0 ∧ out.h = 6 - 0 ∧
      ∀ px py : Int, 0 ≤ px → 0 ≤ py →
        (¬ ∃ tile ∈ [(⟨0, 0, 0, 0, 4, 4, ["t0"], none, none⟩ : Tile)],
          covers tile (0 + px) (0 + py)) →
        out.pix px py = 0 :=
  compose_region_unclamped (fun _ => true) (fun _ _ _ => 9)
    { image_width := 4, image_height := 4, tile_size := 4, image_mode := "L",
      tiles := [⟨0, 0, 0, 0, 4, 4, ["t0"], none, none⟩],
      project_root := none, label_metadata := none }
    ["m"] 0 0 6 6 (by omega) (by omega) (by decide)

/-- C7 (amended): file resolution tries, in order, the path relative to the
manifest's directory, then — when the manifest records a project root and the
record carries a root-relative reference — that root-relative location (the
absolute reference is *not* consulted in this case, even if its file exists);
an absolute reference is tried only when the root-relative strategy is not
applicable (no project root or no root-relative reference).  If the
applicable strategies do not resolve to an existing file, composition of the
whole region fails with `MissingTile` naming an unresolvable tile's row/col,
leaving no output. -/
theorem tile_resolution_order :
    (∀ (fs : FPath → Bool) (baseDir : FPath) (projectRoot : Option FPath) (tile : Tile),
        fs (baseDir ++ tile.path) = true →
        resolveTile fs baseDir projectRoot tile = some (baseDir ++ tile.path)) ∧
    (∀ (fs : FPath → Bool) (baseDir root : FPath) (tile : Tile) (rel : FPath),
        fs (baseDir ++ tile.path) = false → tile.relative_to_root = some rel →
        fs (root ++ rel) = true →
        resolveTile fs baseDir (some root) tile = some (root ++ rel)) ∧
    (∀ (fs : FPath → Bool) (baseDir root : FPath) (tile : Tile) (rel : FPath),
        fs (baseDir ++ tile.path) = false → tile.relative_to_root = some rel →
        fs (root ++ rel) = false →
        resolveTile fs baseDir (some root) tile = none) ∧
    (∀ (fs : FPath → Bool) (baseDir : FPath) (projectRoot : Option FPath)
        (tile : Tile) (a : FPath),
        fs (baseDir ++ tile.path) = false → tile.absolute = some a →
        (projectRoot = none ∨ tile.relative_to_root = none) →
        fs a = true →
        resolveTile fs baseDir projectRoot tile = some a) ∧
    (∀ (fs : FPath → Bool) (tileImg : FPath → Img) (m : Manifest) (baseDir : FPath)
        (l t r b : Int), l < r → t < b →
        (∃ tile ∈ m.tiles, resolveTile fs baseDir m.project_root tile = none) →
        ∃ tile ∈ m.tiles, resolveTile fs baseDir m.project_root tile = none ∧
          (compose_region fs tileImg m baseDir (l, t, r, b)).2 =
            .error (.missingTile tile.row tile.col)) := by
  refine ⟨?_, ?_, ?_, ?_, ?_⟩
  · intro fs baseDir projectRoot tile h
    simp [resolveTile, h]
  · intro fs baseDir root tile rel h1 h2 h3
    simp [resolveTile, h1, h2, h3]
  · intro fs baseDir root tile rel h1 h2 h3
    simp [resolveTile, h1, h2, h3]
  · intro fs baseDir projectRoot tile a h1 ha hcase h4
    rcases hcase with hc | hc <;> simp [resolveTile, h1, ha, hc, h4]
  · intro fs tileImg m baseDir l t r b hlr htb hex
    rw [compose_region_nondegenerate fs tileImg m baseDir l t r b hlr htb]
    exact composeAux_missing fs tileImg baseDir m.project_root l t r b m.tiles _ [] hex

theorem tile_resolution_order_witness :
    resolveTile (fun p => decide (p = ["mdir", "t"])) ["mdir"] none
      ⟨0, 0, 0, 0, 1, 1, ["t"], none, none⟩ = some ["mdir", "t"] ∧
    (∃ tile ∈ mMissing.tiles,
      resolveTile (fun _ => false) ["mdir"] none tile = none ∧
      (compose_region (fun _ => false) (fun _ _ _ => 0) mMissing
        ["mdir"] (0, 0, 1, 1)).2 = .error (.missingTile tile.row tile.col)) :=
  ⟨tile_resolution_order.1 (fun p => decide (p = ["mdir", "t"])) ["mdir"] none
      ⟨0, 0, 0, 0, 1, 1, ["t"], none, none⟩ (by decide),
   tile_resolution_order.2.2.2.2 (fun _ => false) (fun _ _ _ => 0) mMissing
      ["mdir"] 0 0 1 1 (by omega) (by omega)
      ⟨⟨2, 3, 0, 0, 1, 1, ["t"], none, none⟩, by decide, by decide⟩⟩

/-- C7, counterexample to the claim as stated: when the manifest records a
project root and the tile carries a root-relative reference whose file is
absent, the recorded absolute reference is *not* tried — resolution fails
even though the absolute reference's file exists. -/
theorem tile_resolution_order_counterexample :
    resolveTile (fun p => decide (p = ["abs", "t"])) ["mdir"] (some ["proot"])
      ⟨0, 1, 0, 0, 4, 4, ["t"], some ["rel", "t"], some ["abs", "t"]⟩ = none ∧
    (fun p => decide (p = ["abs", "t"])) ["abs", "t"] = true ∧
    (⟨0, 1, 0, 0, 4, 4, ["t"], some ["rel", "t"], some ["abs", "t"]⟩ : Tile).absolute =
      some ["abs", "t"] := by
  refine ⟨by decide, by decide, rfl⟩

/-- C2: for a positive tile pitch `T`, the splitter produces the row-major
grid of exactly `ceil(H/T) * ceil(W/T)` records — rows top-to-bottom, columns
left-to-right, the record for row `r`, column `c` having `x = c*T`,
`y = r*T`, `width = min((c+1)*T, W) - c*T`, `height = min((r+1)*T, H) - r*T`. -/
theorem split_into_tiles_grid (W H T : Nat) (hT : 0 < T) :
    split_into_tiles W H T =
      some ((List.range ((H + T - 1) / T)).flatMap fun r =>
        (List.range ((W + T - 1) / T)).map fun c =>
          { row := r, col := c, x := c * T, y := r * T,
            width := min ((c + 1) * T) W - c * T,
            height := min ((r + 1) * T) H - r * T }) ∧
    (splitTiles W H T).length = ((H + T - 1) / T) * ((W + T - 1) / T) := by
  refine ⟨?_, splitTiles_length W H T hT⟩
  rw [split_into_tiles, if_neg (by omega), splitTiles_eq_grid W H T hT]

theorem split_into_tiles_grid_witness :
    (splitTiles 5000 3000 2048).length = 2 * 3 ∧
    ({ row := 1, col := 2, x := 4096, y := 2048, width := 904, height := 952 } : SplitTile)
      ∈ splitTiles 5000 3000 2048 ∧
    ((splitTiles 5000 3000 2048).map SplitTile.row = [0, 0, 0, 1, 1, 1] ∧
     (splitTiles 5000 3000 2048).map SplitTile.col = [0, 1, 2, 0, 1, 2]) :=
  ⟨((split_into_tiles_grid 5000 3000 2048 (by decide)).2).trans (by decide),
   by decide, by decide, by decide⟩

/-- C1 (amended with positive raster dimensions): splitting a `W × H` raster
at pitch `T` and running `stitch_full` over the resulting manifest — i.e.
composing the pixel rectangle `(0, 0, W, H)` — reproduces the raster
pixel-for-pixel; and the splitter's tile rectangles partition `[0,W) × [0,H)`
with no gap and no overlap.  The file-system hypotheses say exactly that the
tile files the splitter wrote exist next to the manifest and decode to the
crops the splitter saved. -/
theorem split_stitch_roundtrip (W H T : Nat) (hW : 0 < W) (hH : 0 < H) (hT : 0 < T)
    (stem mode : String) (img : Img) (fs : FPath → Bool) (baseDir : FPath)
    (tileImg : FPath → Img)
    (hfs : ∀ tile ∈ (manifestOfSplit stem mode W H T).tiles,
      fs (baseDir ++ tile.path) = true)
    (hcontent : ∀ tile ∈ (manifestOfSplit stem mode W H T).tiles, ∀ i j : Int,
      tileImg (baseDir ++ tile.path) i j = img (tile.x + i) (tile.y + j)) :
    (∃ out : Canvas,
        (stitch_full fs tileImg (manifestOfSplit stem mode W H T) baseDir).2 = .ok out ∧
        out.w = (W : Int) ∧ out.h = (H : Int) ∧
        ∀ x y : Int, 0 ≤ x → x < (W : Int) → 0 ≤ y → y < (H : Int) →
          out.pix x y = img x y) ∧
    (∀ x y : Nat, x < W → y < H → ∃! tl : SplitTile, tl ∈ splitTiles W H T ∧
        tl.x ≤ x ∧ x < tl.x + tl.width ∧ tl.y ≤ y ∧ y < tl.y + tl.height) := by
  constructor
  · have hres : ∀ tile ∈ (manifestOfSplit stem mode W H T).tiles,
        (resolveTile fs baseDir (manifestOfSplit stem mode W H T).project_root
          tile).isSome = true := by
      intro tile ht
      have h := hfs tile ht
      simp [resolveTile, manifestOfSplit, h]
    have hcontent2 : ∀ tile ∈ (manifestOfSplit stem mode W H T).tiles, ∀ i j : Int,
        tileImg (resolvedPath fs baseDir
          (manifestOfSplit stem mode W H T).project_root tile) i j =
          img (tile.x + i) (tile.y + j) := by
      intro tile ht i j
      have h := hfs tile ht
      have hrp : resolvedPath fs baseDir
          (manifestOfSplit stem mode W H T).project_root tile = baseDir ++ tile.path := by
        simp [resolvedPath, resolveTile, manifestOfSplit, h]
      rw [hrp]
      exact hcontent tile ht i j
    have h0W : (0 : Int) < (W : Int) := by exact_mod_cast hW
    have h0H : (0 : Int) < (H : Int) := by exact_mod_cast hH
    rw [stitch_full,
      show (manifestOfSplit stem mode W H T).image_width = (W : Int) from rfl,
      show (manifestOfSplit stem mode W H T).image_height = (H : Int) from rfl,
      compose_region_nondegenerate fs tileImg (manifestOfSplit stem mode W H T)
        baseDir 0 0 (W : Int) (H : Int) h0W h0H]
    obtain ⟨out, hout, hww, hhh, hchar⟩ :=
      composeAux_ok_char fs tileImg baseDir
        (manifestOfSplit stem mode W H T).project_root img 0 0 (W : Int) (H : Int)
        (manifestOfSplit stem mode W H T).tiles
        { w := (W : Int) - 0, h := (H : Int) - 0, pix := fun _ _ => 0 } []
        rfl rfl hres hcontent2
    refine ⟨out, hout, by rw [hww]; show (W : Int) - 0 = (W : Int); omega,
      by rw [hhh]; show (H : Int) - 0 = (H : Int); omega, ?_⟩
    intro x y hx0 hxW hy0 hyH
    have hnx : x.toNat < W := by omega
    have hny : y.toNat < H := by omega
    obtain ⟨tl, ⟨htl, hcov⟩, -⟩ := splitTiles_covers_unique W H T hT hnx hny
    have hmem : tileOfSplit stem tl ∈ (manifestOfSplit stem mode W H T).tiles :=
      List.mem_map.mpr ⟨tl, htl, rfl⟩
    have hx1 : ((x.toNat : Nat) : Int) = x := Int.toNat_of_nonneg hx0
    have hy1 : ((y.toNat : Nat) : Int) = y := Int.toNat_of_nonneg hy0
    have hpos := (hchar x y hx0 hy0).1
      ⟨tileOfSplit stem tl, hmem, by
        obtain ⟨c1, c2, c3, c4⟩ := hcov
        simp only [tileOfSplit, covers]
        refine ⟨by omega, by omega, by omega, by omega⟩,
        by simp only [inRect]; omega⟩
    rw [zero_add, zero_add] at hpos
    exact hpos
  · intro x y hx hy
    exact splitTiles_covers_unique W H T hT hx hy

theorem split_stitch_roundtrip_witness :
    (∃ out : Canvas,
        (stitch_full (fun _ => true) (fun _ _ _ => 7)
          (manifestOfSplit "s" "L" 1 1 1) ["d"]).2 = .ok out ∧
        out.w = ((1 : Nat) : Int) ∧ out.h = ((1 : Nat) : Int) ∧
        ∀ x y : Int, 0 ≤ x → x < ((1 : Nat) : Int) → 0 ≤ y → y < ((1 : Nat) : Int) →
          out.pix x y = 7) ∧
    (∀ x y : Nat, x < 1 → y < 1 → ∃! tl : SplitTile, tl ∈ splitTiles 1 1 1 ∧
        tl.x ≤ x ∧ x < tl.x + tl.width ∧ tl.y ≤ y ∧ y < tl.y + tl.height) :=
  split_stitch_roundtrip 1 1 1 (by decide) (by decide) (by decide) "s" "L"
    (fun _ _ => 7) (fun _ => true) ["d"] (fun _ _ _ => 7)
    (fun _ _ => rfl) (fun _ _ _ _ => rfl)

/-- C1, counterexample to the unrestricted claim: for a degenerate raster
(`W = H = 0`) `stitch_full` does not reproduce the (empty) raster — it fails
with `EmptyRegion`, because `compose_region` rejects the zero-area rectangle
`(0, 0, 0, 0)`. -/
theorem split_stitch_degenerate_counterexample :
    stitch_full (fun _ => true) (fun _ _ _ => 0)
      (manifestOfSplit "s" "RGB" 0 0 1) ["m"] = ([], .error .emptyRegion) := rfl

/-- Unfolding of `crop_rect` at an explicit request tuple
`(min_lat, min_lon, max_lat, max_lon)`. -/
theorem crop_rect_def (bounds : GeoBounds) (W H qa qc qb qd : ℚ) :
    crop_rect bounds W H (qa, qc, qb, qd) =
      if bounds.max_lat - bounds.min_lat ≤ 0 ∨ bounds.east_lon - bounds.west_lon ≤ 0 then
        .error .invalidExtent
      else
        cropRectClamped bounds W H
          (clampQ bounds.min_lat bounds.max_lat (min qa qb))
          (clampQ bounds.min_lat bounds.max_lat (max qa qb))
          (clampQ bounds.west_lon bounds.east_lon (min qc qd))
          (clampQ bounds.west_lon bounds.east_lon (max qc qd)) := rfl

/-- C3: whenever `crop_by_latlon`'s geographic mapping hands a rectangle to
the Compositor, that rectangle is obtained by mapping the clamped request
through `y = (max_lat - lat) / lat_span * H` and
`x = (lon - west_lon) / lon_span * W` and rounding outward — floor of left
and top, ceil of right and bottom — so the composed raster fully covers the
(clamped) requested geography. -/
theorem crop_rect_linear_outward (bounds : GeoBounds) (W H : ℚ) (qa qc qb qd : ℚ)
    (l t r b : Int)
    (hok : crop_rect bounds W H (qa, qc, qb, qd) = .ok (l, t, r, b)) :
    (l = ⌊max 0 (min W (lonToX bounds W
        (clampQ bounds.west_lon bounds.east_lon (min qc qd))))⌋ ∧
     t = ⌊max 0 (min H (latToY bounds H
        (clampQ bounds.min_lat bounds.max_lat (max qa qb))))⌋ ∧
     r = ⌈max 0 (min W (lonToX bounds W
        (clampQ bounds.west_lon bounds.east_lon (max qc qd))))⌉ ∧
     b = ⌈max 0 (min H (latToY bounds H
        (clampQ bounds.min_lat bounds.max_lat (min qa qb))))⌉) ∧
    ((l : ℚ) ≤ max 0 (min W (lonToX bounds W
        (clampQ bounds.west_lon bounds.east_lon (min qc qd)))) ∧
     max 0 (min W (lonToX bounds W
        (clampQ bounds.west_lon bounds.east_lon (max qc qd)))) ≤ (r : ℚ) ∧
     (t : ℚ) ≤ max 0 (min H (latToY bounds H
        (clampQ bounds.min_lat bounds.max_lat (max qa qb)))) ∧
     max 0 (min H (latToY bounds H
        (clampQ bounds.min_lat bounds.max_lat (min qa qb)))) ≤ (b : ℚ)) := by
  rw [crop_rect_def] at hok
  by_cases h1 : bounds.max_lat - bounds.min_lat ≤ 0 ∨ bounds.east_lon - bounds.west_lon ≤ 0
  · rw [if_pos h1] at hok
    exact absurd hok (by simp)
  rw [if_neg h1] at hok
  simp only [cropRectClamped] at hok
  split_ifs at hok with h2 h3
  simp only [Except.ok.injEq, Prod.mk.injEq] at hok
  obtain ⟨e1, e2, e3, e4⟩ := hok
  refine ⟨⟨e1.symm, e2.symm, e3.symm, e4.symm⟩, ?_, ?_, ?_, ?_⟩
  · rw [← e1]; exact Int.floor_le _
  · rw [← e3]; exact Int.le_ceil _
  · rw [← e2]; exact Int.floor_le _
  · rw [← e4]; exact Int.le_ceil _

theorem crop_rect_linear_outward_witness :
    crop_rect ⟨10, 20, 30, 40⟩ 1000 1000 (12, 32, 18, 38) = .ok (200, 200, 800, 800) ∧
    ((200 : Int) : ℚ) ≤ max 0 (min 1000 (lonToX ⟨10, 20, 30, 40⟩ 1000
      (clampQ 30 40 (min 32 38)))) := by
  have hok : crop_rect ⟨10, 20, 30, 40⟩ 1000 1000 (12, 32, 18, 38) =
      .ok (200, 200, 800, 800) := by
    rw [crop_rect_def]
    norm_num [cropRectClamped, clampQ, lonToX, latToY]
  exact ⟨hok,
    ((crop_rect_linear_outward ⟨10, 20, 30, 40⟩ 1000 1000 12 32 18 38
      200 200 800 800 hok).2).1⟩

/-- C4: for a valid scene extent, a requested box whose intersection with
the extent is non-degenerate in both axes is clamped (intersected) rather
than rejected — `crop_rect` behaves exactly as if the already-clamped box had
been requested, and never fails with `OutOfBounds`; while a requested box
whose intersection is empty (degenerate) in latitude or in longitude fails
with `OutOfBounds`, and `crop_by_latlon` then returns before any composition
is attempted (empty I/O trace). -/
theorem crop_clamps_or_out_of_bounds (bounds : GeoBounds) (W H : ℚ) (qa qc qb qd : ℚ)
    (hlat : 0 < bounds.max_lat - bounds.min_lat)
    (hlon : 0 < bounds.east_lon - bounds.west_lon) :
    (clampQ bounds.min_lat bounds.max_lat (min qa qb) <
        clampQ bounds.min_lat bounds.max_lat (max qa qb) →
      clampQ bounds.west_lon bounds.east_lon (min qc qd) <
        clampQ bounds.west_lon bounds.east_lon (max qc qd) →
      crop_rect bounds W H (qa, qc, qb, qd) =
        crop_rect bounds W H
          (clampQ bounds.min_lat bounds.max_lat (min qa qb),
           clampQ bounds.west_lon bounds.east_lon (min qc qd),
           clampQ bounds.min_lat bounds.max_lat (max qa qb),
           clampQ bounds.west_lon bounds.east_lon (max qc qd)) ∧
      crop_rect bounds W H (qa, qc, qb, qd) ≠ .error .outOfBounds) ∧
    ((clampQ bounds.min_lat bounds.max_lat (max qa qb) ≤
        clampQ bounds.min_lat bounds.max_lat (min qa qb) ∨
      clampQ bounds.west_lon bounds.east_lon (max qc qd) ≤
        clampQ bounds.west_lon bounds.east_lon (min qc qd)) →
      crop_rect bounds W H (qa, qc, qb, qd) = .error .outOfBounds) ∧
    (∀ (fs : FPath → Bool) (tileImg : FPath → Img) (m : Manifest) (baseDir : FPath),
      extract_bounds m =
        .ok (bounds.min_lat, bounds.max_lat, bounds.west_lon, bounds.east_lon) →
      (m.image_width : ℚ) = W → (m.image_height : ℚ) = H →
      (clampQ bounds.min_lat bounds.max_lat (max qa qb) ≤
          clampQ bounds.min_lat bounds.max_lat (min qa qb) ∨
        clampQ bounds.west_lon bounds.east_lon (max qc qd) ≤
          clampQ bounds.west_lon bounds.east_lon (min qc qd)) →
      crop_by_latlon fs tileImg m baseDir (qa, qc, qb, qd) =
        ([], .error .outOfBounds)) := by
  have hcond : ¬ (bounds.max_lat - bounds.min_lat ≤ 0 ∨
      bounds.east_lon - bounds.west_lon ≤ 0) := by
    push_neg
    exact ⟨by linarith, by linarith⟩
  have hlole : bounds.min_lat ≤ bounds.max_lat := by linarith
  have hwle : bounds.west_lon ≤ bounds.east_lon := by linarith
  have hoob : (clampQ bounds.min_lat bounds.max_lat (max qa qb) ≤
        clampQ bounds.min_lat bounds.max_lat (min qa qb) ∨
      clampQ bounds.west_lon bounds.east_lon (max qc qd) ≤
        clampQ bounds.west_lon bounds.east_lon (min qc qd)) →
      crop_rect bounds W H (qa, qc, qb, qd) = .error .outOfBounds := by
    intro hemp
    rw [crop_rect_def, if_neg hcond]
    simp only [cropRectClamped]
    rw [if_pos]
    rcases hemp with h | h
    · exact Or.inl (by linarith)
    · exact Or.inr (by linarith)
  refine ⟨fun hlt hln => ⟨?_, ?_⟩, hoob, ?_⟩
  · rw [crop_rect_def, crop_rect_def]
    rw [min_eq_left (clampQ_mono _ _ min_le_max),
        max_eq_right (clampQ_mono _ _ min_le_max),
        min_eq_left (clampQ_mono _ _ min_le_max),
        max_eq_right (clampQ_mono _ _ min_le_max),
        clampQ_idem _ _ _ hlole, clampQ_idem _ _ _ hlole,
        clampQ_idem _ _ _ hwle, clampQ_idem _ _ _ hwle]
  · rw [crop_rect_def, if_neg hcond]
    simp only [cropRectClamped]
    rw [if_neg (by push_neg; exact ⟨by linarith, by linarith⟩)]
    split_ifs
    · simp
    · simp
  · intro fs tileImg m baseDir hext hWm hHm hemp
    have hgb : (⟨bounds.min_lat, bounds.max_lat, bounds.west_lon,
        bounds.east_lon⟩ : GeoBounds) = bounds := rfl
    simp only [crop_by_latlon, hext, hgb, hWm, hHm, hoob hemp]

theorem crop_clamps_or_out_of_bounds_witness :
    crop_rect ⟨10, 20, 30, 40⟩ 1000 1000 (25, 32, 30, 38) = .error .outOfBounds ∧
    crop_rect ⟨10, 20, 30, 40⟩ 1000 1000 (5, 32, 15, 38) ≠ .error .outOfBounds ∧
    crop_rect ⟨10, 20, 30, 40⟩ 1000 1000 (5, 32, 15, 38) =
      crop_rect ⟨10, 20, 30, 40⟩ 1000 1000
        (clampQ 10 20 (min 5 15), clampQ 30 40 (min 32 38),
         clampQ 10 20 (max 5 15), clampQ 30 40 (max 32 38)) :=
  ⟨(crop_clamps_or_out_of_bounds ⟨10, 20, 30, 40⟩ 1000 1000 25 32 30 38
      (by norm_num) (by norm_num)).2.1
      (Or.inl (by norm_num [clampQ])),
   ((crop_clamps_or_out_of_bounds ⟨10, 20, 30, 40⟩ 1000 1000 5 32 15 38
      (by norm_num) (by norm_num)).1
      (by norm_num [clampQ]) (by norm_num [clampQ])).2,
   ((crop_clamps_or_out_of_bounds ⟨10, 20, 30, 40⟩ 1000 1000 5 32 15 38
      (by norm_num) (by norm_num)).1
      (by norm_num [clampQ]) (by norm_num [clampQ])).1⟩

/-- C10: `extract_bounds` sorts the two latitude fields (`min`/`max`), so a
manifest with swapped latitudes is still accepted, but passes the west/east
longitudes through unsorted; and `crop_by_latlon` fails (with the
invalid-extent error, before any composition) on every manifest whose east
longitude minus west longitude is not positive. -/
theorem extract_bounds_sorts_latitudes (a c w e : ℚ) (m : Manifest)
    (hm : m.label_metadata = some ⟨some ⟨some a, some c, some w, some e⟩⟩) :
    extract_bounds m = .ok (min a c, max a c, w, e) ∧
    (∀ (fs : FPath → Bool) (tileImg : FPath → Img) (baseDir : FPath)
        (q : ℚ × ℚ × ℚ × ℚ), e - w ≤ 0 →
      crop_by_latlon fs tileImg m baseDir q = ([], .error .invalidExtent)) := by
  have h1 : extract_bounds m = .ok (min a c, max a c, w, e) := by
    simp [extract_bounds, hm]
  refine ⟨h1, ?_⟩
  intro fs tileImg baseDir q hew
  have h2 : crop_rect ⟨min a c, max a c, w, e⟩
      (m.image_width : ℚ) (m.image_height : ℚ) q = .error .invalidExtent := by
    simp only [crop_rect]
    rw [if_pos (Or.inr (show e - w ≤ 0 from hew))]
  simp only [crop_by_latlon, h1, h2]

theorem extract_bounds_sorts_latitudes_witness :
    extract_bounds mSwapped = .ok (min 20 10, max 20 10, 40, 30) ∧
    crop_by_latlon (fun _ => true) (fun _ _ _ => 0) mSwapped ["m"] (0, 0, 1, 1) =
      ([], .error .invalidExtent) :=
  ⟨(extract_bounds_sorts_latitudes 20 10 40 30 mSwapped rfl).1,
   (extract_bounds_sorts_latitudes 20 10 40 30 mSwapped rfl).2
     (fun _ => true) (fun _ _ _ => 0) ["m"] (0, 0, 1, 1) (by norm_num)⟩

/-- C8: the offset/resolution projection (modelled from the spec; the module
itself is absent from `src`, only its metadata fields are recorded by
`load_label_metadata`): `wrap` lands every longitude delta in `[-180, 180)`,
and the rectangle returned by `offsetProjRect` encloses the projection of all
four corners of the requested box. -/
theorem offset_projection_four_corners (p : OffsetProjection)
    (minLat minLon maxLat maxLon : ℚ) :
    (∀ d : ℚ, -180 ≤ wrapLonDelta d ∧ wrapLonDelta d < 180) ∧
    (∀ lat lon : ℚ, (lat = minLat ∨ lat = maxLat) → (lon = minLon ∨ lon = maxLon) →
      (offsetProjRect p minLat minLon maxLat maxLon).1 ≤ sampleOf p lon ∧
      sampleOf p lon ≤ (offsetProjRect p minLat minLon maxLat maxLon).2.2.1 ∧
      (offsetProjRect p minLat minLon maxLat maxLon).2.1 ≤ lineOf p lat ∧
      lineOf p lat ≤ (offsetProjRect p minLat minLon maxLat maxLon).2.2.2) := by
  constructor
  · intro d
    have h360 : (0 : ℚ) < 360 := by norm_num
    have h1 : ((⌊(d + 180) / 360⌋ : Int) : ℚ) ≤ (d + 180) / 360 := Int.floor_le _
    have h2 : (d + 180) / 360 < (⌊(d + 180) / 360⌋ : ℚ) + 1 := Int.lt_floor_add_one _
    have h3 : ((⌊(d + 180) / 360⌋ : Int) : ℚ) * 360 ≤ d + 180 := (le_div_iff₀ h360).mp h1
    have h4 : d + 180 < ((⌊(d + 180) / 360⌋ : ℚ) + 1) * 360 := by
      rw [← div_lt_iff₀ h360]
      exact h2
    unfold wrapLonDelta
    constructor <;> linarith
  · intro lat lon hlat hlon
    rcases hlat with rfl | rfl <;> rcases hlon with rfl | rfl
    · exact ⟨min_le_left _ _, le_max_left _ _, min_le_left _ _, le_max_left _ _⟩
    · exact ⟨min_le_right _ _, le_max_right _ _, min_le_left _ _, le_max_left _ _⟩
    · exact ⟨min_le_left _ _, le_max_left _ _, min_le_right _ _, le_max_right _ _⟩
    · exact ⟨min_le_right _ _, le_max_right _ _, min_le_right _ _, le_max_right _ _⟩

theorem offset_projection_four_corners_witness :
    (-180 ≤ wrapLonDelta 500 ∧ wrapLonDelta 500 < 180) ∧
    ((offsetProjRect ⟨7, 11, 0, 0, 2⟩ 0 10 5 20).1 ≤ sampleOf ⟨7, 11, 0, 0, 2⟩ 10 ∧
      sampleOf ⟨7, 11, 0, 0, 2⟩ 10 ≤ (offsetProjRect ⟨7, 11, 0, 0, 2⟩ 0 10 5 20).2.2.1 ∧
      (offsetProjRect ⟨7, 11, 0, 0, 2⟩ 0 10 5 20).2.1 ≤ lineOf ⟨7, 11, 0, 0, 2⟩ 0 ∧
      lineOf ⟨7, 11, 0, 0, 2⟩ 0 ≤ (offsetProjRect ⟨7, 11, 0, 0, 2⟩ 0 10 5 20).2.2.2) :=
  ⟨(offset_projection_four_corners ⟨7, 11, 0, 0, 2⟩ 0 10 5 20).1 500,
   (offset_projection_four_corners ⟨7, 11, 0, 0, 2⟩ 0 10 5 20).2 0 10
     (Or.inl rfl) (Or.inl rfl)⟩
